import Mathlib

/-
Verification of the hex-grid library: a shallow embedding of the coordinate
model, the copy-on-write hex-set structure, the hole-filling / outer-border
region algorithms, the proto serialization layer, and the angular-interval
arithmetic, with theorems checking the specified properties against the code.

Go integer `/` and `%` truncate toward zero; where operands can be negative
the embedding uses Int.tdiv / Int.tmod.  Where only an `% 2 == 0` parity test
is made, Lean's emod agrees with Go's tmod and `%` is used directly.
-/

/-- HexCoord is a coordinate on a hex grid (hexcoord.go). -/
structure HexCoord where
  X : Int
  Y : Int
deriving DecidableEq, Repr, Inhabited

/-- HexDir represents one of the six directions on a hex grid (hex.go). -/
inductive HexDir where
  | North
  | Northwest
  | Southwest
  | South
  | Southeast
  | Northeast
deriving DecidableEq, Repr, Inhabited

/-- The canonical direction order (hex.go OrderedDirections). -/
def OrderedDirections : List HexDir :=
  [.North, .Northwest, .Southwest, .South, .Southeast, .Northeast]

/-- Direction deltas (hex.go Directions map). -/
def Directions : HexDir → HexCoord
  | .North => ⟨0, 2⟩
  | .Northwest => ⟨-1, 1⟩
  | .Southwest => ⟨-1, -1⟩
  | .South => ⟨0, -2⟩
  | .Southeast => ⟨1, -1⟩
  | .Northeast => ⟨1, 1⟩

/-- Orthogonal-counterclockwise pairing (hex.go OrthogonalCCW map). -/
def OrthogonalCCW : HexDir → HexDir
  | .North => .Southwest
  | .Northwest => .South
  | .Southwest => .Southeast
  | .South => .Northeast
  | .Southeast => .North
  | .Northeast => .Northwest

/-- The origin cell (hex.go Origin). -/
def Origin : HexCoord := ⟨0, 0⟩

/-- NewHex creates a HexCoord without validity check (hexcoord.go). -/
def NewHex (x y : Int) : HexCoord := ⟨x, y⟩

/-- AbsX (hexcoord.go). -/
def HexCoord.AbsX (c : HexCoord) : Int := if c.X ≥ 0 then c.X else -c.X

/-- AbsY (hexcoord.go). -/
def HexCoord.AbsY (c : HexCoord) : Int := if c.Y ≥ 0 then c.Y else -c.Y

/-- Radius (hexcoord.go); the odd-coordinate-sum panic branch is `none`.
The divisions are of even integers, where Go and Lean division agree. -/
def HexCoord.Radius? (c : HexCoord) : Option Int :=
  let rv := c.AbsX + c.AbsY
  if rv % 2 ≠ 0 then none
  else
    let smallSteps := c.AbsX
    let bigSteps0 := (c.AbsY - c.AbsX) / 2
    let bigSteps := if bigSteps0 < 0 then 0 else bigSteps0
    some (bigSteps + smallSteps)

/-- AddMultDelta: c + m * d (hexcoord.go). -/
def HexCoord.AddMultDelta (c : HexCoord) (m : Int) (d : HexCoord) : HexCoord :=
  ⟨c.X + m * d.X, c.Y + m * d.Y⟩

/-- AddDelta (hexcoord.go). -/
def HexCoord.AddDelta (c : HexCoord) (d : HexCoord) : HexCoord :=
  c.AddMultDelta 1 d

/-- Negation (hexcoord.go). -/
def HexCoord.Negation (c : HexCoord) : HexCoord :=
  Origin.AddMultDelta (-1) c

/-- Minus (hexcoord.go). -/
def HexCoord.Minus (c : HexCoord) (p : HexCoord) : HexCoord :=
  c.AddMultDelta (-1) p

/-- Move (hexcoord.go).  Faithful to the source: inside the loop each new
value is computed from the receiver `c`, not from the accumulator `rv`. -/
def HexCoord.Move (c : HexCoord) (ds : List HexDir) : HexCoord :=
  ds.foldl (fun _rv d => let dc := Directions d; ⟨c.X + dc.X, c.Y + dc.Y⟩) c

/-- Neighbours (hexcoord.go): the six neighbours in canonical order. -/
def HexCoord.Neighbours (c : HexCoord) : List HexCoord :=
  OrderedDirections.map (fun d => c.AddDelta (Directions d))

/-- Less: lexicographic ordering (hexcoord.go). -/
def HexCoord.Less (a b : HexCoord) : Bool :=
  if a.X < b.X then true
  else if a.X > b.X then false
  else if a.Y < b.Y then true
  else false

/-- HexCircumference (algo.go). -/
def HexCircumference (r : Int) : Int :=
  if r = 0 then 1 else 6 * r

/-- NewHexPolar (hexcoord.go).  Go's OrderedDirections[section] panics when
section is outside 0..5; that is `none` here.  Division and modulus use Go
truncated semantics. -/
def NewHexPolar (r step : Int) : Option HexCoord :=
  if r = 0 then some (NewHex 0 0)
  else
    let circum := HexCircumference r
    let step1 := if step > circum then step.tmod circum else step
    let sect := step1.tdiv r
    let substep := step1.tmod r
    if h : 0 ≤ sect ∧ sect < 6 then
      let direction := OrderedDirections.get ⟨sect.toNat, by
        have h1 := h.1
        have h2 := h.2
        simp only [OrderedDirections, List.length]
        omega⟩
      let baseDelta := Directions direction
      let orthoDelta := Directions (OrthogonalCCW direction)
      let base := Origin.AddMultDelta r baseDelta
      some (base.AddMultDelta substep orthoDelta)
    else none

/-- The validity invariant on hex coordinates: X and Y of equal parity
(hexcoord.go comment on HexCoord). -/
def validHex (c : HexCoord) : Prop := c.X % 2 = c.Y % 2

instance : DecidablePred validHex := fun c => by
  unfold validHex; infer_instance

/-- Error conditions raised by validated construction / decoding. -/
inductive ProtoErr where
  | InvalidCoordinate
deriving DecidableEq, Repr

/-- TryNewHex (hexcoord.go): fails when x and y have unequal parity. -/
def TryNewHex (x y : Int) : Except ProtoErr HexCoord :=
  let xEven := x % 2 == 0
  let yEven := y % 2 == 0
  if xEven != yEven then .error .InvalidCoordinate
  else .ok (NewHex x y)

/-- The proto coordinate: two int32 fields (hexpb).  Values are whatever the
int32 conversion in ToProto produced. -/
structure PbHexCoord where
  X : Int
  Y : Int
deriving DecidableEq, Repr

/-- Go int32(x) conversion: wrap into [-2^31, 2^31). -/
def int32wrap (x : Int) : Int := (x + 2 ^ 31) % 2 ^ 32 - 2 ^ 31

/-- ToProto (hexcoord.go): truncates each int coordinate to int32. -/
def HexCoord.ToProto (c : HexCoord) : PbHexCoord :=
  ⟨int32wrap c.X, int32wrap c.Y⟩

/-- HexFromProto (hexcoord.go): int(p.X) sign-extends, then TryNewHex. -/
def HexFromProto (p : PbHexCoord) : Except ProtoErr HexCoord :=
  TryNewHex p.X p.Y

/-
Model of a concrete (bottom) hex set for the region algorithms: a duplicate
free list of coordinates standing for the Go map[HexCoord]bool.  Enumeration
order of a Go map is unspecified; every use below is order-insensitive up to
set membership, or sorts first.
-/

/-- The bottom hex-set storage: its member list. -/
abbrev HSet := List HexCoord

/-- Membership (hexSetBottom.Contains). -/
def HSet.contains (h : HSet) (p : HexCoord) : Bool :=
  List.contains h p

/-- Add (hexSetBottom.Add): map insert. -/
def HSet.add (h : HSet) (p : HexCoord) : HSet :=
  if HSet.contains h p then h else h ++ [p]

/-- Remove (hexSetBottom.Remove): map delete. -/
def HSet.remove (h : HSet) (p : HexCoord) : HSet :=
  List.filter (fun q => q != p) h

/-- InPlaceUnion of bottom sets (hex.go InPlaceUnion on fresh sets): add every
element of the second set. -/
def HSet.union (a b : HSet) : HSet :=
  List.foldl HSet.add a b

/-- MaxRadius (hexSetBottom.MaxRadius, default branch: rv starts at 0 and is
raised over the members; `none` on the Radius panic). -/
def HSet.MaxRadius (h : HSet) : Option Int :=
  List.foldlM (fun rv p => (HexCoord.Radius? p).map fun r => if r > rv then r else rv) 0 h

/-- Insertion step for the sort behind ToOrderedList. -/
def insertLess (p : HexCoord) : List HexCoord → List HexCoord
  | [] => [p]
  | q :: rest => if p.Less q then p :: q :: rest else q :: insertLess p rest

/-- ToOrderedList (hex.go): the members sorted by Less.  On duplicate-free
input any comparison sort agrees with this insertion sort, Less being a
strict total order. -/
def HSet.ToOrderedList (h : HSet) : List HexCoord :=
  List.foldr insertLess [] h

/-- Structurally recursive core of `gapYs`: the count bounds the number of
loop iterations, each of which raises y by 2 while y < yEnd. -/
def gapYsAux (x yEnd : Int) : Nat → Int → List HexCoord
  | 0, _ => []
  | count + 1, y => if y < yEnd then NewHex x y :: gapYsAux x yEnd count (y + 2) else []

/-- The vertical gap cells strictly between two same-column members
(HexSetWithHolesFilled scan, algo.go): y from yStart while y < yEnd, step 2. -/
def gapYs (x yStart yEnd : Int) : List HexCoord :=
  gapYsAux x yEnd (yEnd - yStart).toNat yStart

/-- The candidate-hole scan over the ordered member list (algo.go,
HexSetWithHolesFilled first loop).  The out-of-order panic branches are
`none`. -/
def potentialHoles : Option HexCoord → List HexCoord → Option (List HexCoord)
  | _, [] => some []
  | none, p :: rest => potentialHoles (some p) rest
  | some cur, p :: rest =>
    if cur.X = p.X then
      if p.Y ≤ cur.Y then none
      else do
        let rest' ← potentialHoles (some p) rest
        some (gapYs cur.X (cur.Y + 2) p.Y ++ rest')
    else if p.X ≤ cur.X then none
    else potentialHoles (some p) rest

/-- Priority-queue entries: a coordinate with its pushed priority. -/
abbrev PQ := List (HexCoord × Int)

/-- Pop from a max-priority queue (lane.NewPQueue(lane.MAXPQ)): an element of
maximal priority is removed; among ties the earliest pushed is taken. -/
def popMax : PQ → Option ((HexCoord × Int) × PQ)
  | [] => none
  | e :: rest =>
    match popMax rest with
    | none => some (e, [])
    | some (m, rest') => if e.2 ≥ m.2 then some (e, rest) else some (m, e :: rest')

/-- One trace event of the flood fill: the popped entry together with the
queue contents at the moment of the pop. -/
abbrev PopEvent := (HexCoord × Int) × PQ

/-- The inner neighbour loop of the flood fill (algo.go HexSetWithHolesFilled):
returns the extended queue and whether the ocean break was taken. -/
def scanNbs (s body : HSet) (maxR : Int) (ocean : HSet) :
    List HexCoord → PQ → Option (PQ × Bool)
  | [], q => some (q, false)
  | nb :: rest, q =>
    if body.contains nb || s.contains nb then scanNbs s body maxR ocean rest q
    else do
      let r ← nb.Radius?
      if r > maxR || ocean.contains nb then some (q, true)
      else scanNbs s body maxR ocean rest (q ++ [(nb, r)])

/-- The flood-fill loop of HexSetWithHolesFilled (algo.go), instrumented with
the pop trace.  Returns (body, isOcean, trace); `none` on fuel exhaustion or
a Radius panic (neither occurs on the inputs used by the claims). -/
def floodT (s : HSet) (maxR : Int) (ocean : HSet) :
    Nat → PQ → HSet → Option (HSet × Bool × List PopEvent)
  | 0, _, _ => none
  | fuel + 1, q, body =>
    match popMax q with
    | none => some (body, false, [])
    | some (e, q') =>
      match scanNbs s (body.add e.1) maxR ocean (HexCoord.Neighbours e.1) q' with
      | none => none
      | some (_, true) => some (body.add e.1, true, [(e, q)])
      | some (q2, false) =>
        (floodT s maxR ocean fuel q2 (body.add e.1)).map fun x =>
          (x.1, x.2.1, (e, q) :: x.2.2)

/-- The candidate loop of HexSetWithHolesFilled (algo.go): returns the union
of all lake bodies and the per-candidate flood traces. -/
def processCandidates (fuel : Nat) (s : HSet) (maxR : Int) :
    List HexCoord → HSet → HSet → List (List PopEvent) → Option (HSet × List (List PopEvent))
  | [], lake, _, acc => some (lake, acc)
  | p :: rest, lake, ocean, acc =>
    if lake.contains p || ocean.contains p then
      processCandidates fuel s maxR rest lake ocean acc
    else do
      let r ← p.Radius?
      let res ← floodT s maxR ocean fuel [(p, r)] []
      if res.2.1 then
        processCandidates fuel s maxR rest lake (ocean.union res.1) (acc ++ [res.2.2])
      else
        processCandidates fuel s maxR rest (lake.union res.1) ocean (acc ++ [res.2.2])

/-- HexSetWithHolesFilled (algo.go), with the flood-fill pop traces. -/
def HexSetWithHolesFilledT (fuel : Nat) (s : HSet) : Option (HSet × List (List PopEvent)) := do
  let cands ← potentialHoles none s.ToOrderedList
  let maxR ← s.MaxRadius
  let res ← processCandidates fuel s maxR cands [] [] []
  some (s.union res.1, res.2)

/-- HexSetWithHolesFilled (algo.go): original set unioned with all lakes. -/
def HexSetWithHolesFilled (fuel : Nat) (s : HSet) : Option HSet :=
  (HexSetWithHolesFilledT fuel s).map fun x => x.1

/-- OuterBorder (hex.go): every neighbour of a member that is not in the
hole-filled set. -/
def OuterBorder (fuel : Nat) (s : HSet) : Option HSet := do
  let excluded ← HexSetWithHolesFilled fuel s
  some (List.foldl
    (fun rv p =>
      List.foldl
        (fun rv2 nb => if excluded.contains nb then rv2 else rv2.add nb)
        rv p.Neighbours)
    [] s)

/-- The radius-1 ring around the origin, origin absent. -/
def ringS : HSet :=
  [⟨0, 2⟩, ⟨-1, 1⟩, ⟨-1, -1⟩, ⟨0, -2⟩, ⟨1, -1⟩, ⟨1, 1⟩]

/-- The ring with the boundary cell (1,1) removed: the enclosure is broken. -/
def brokenRingS : HSet :=
  [⟨0, 2⟩, ⟨-1, 1⟩, ⟨-1, -1⟩, ⟨0, -2⟩, ⟨1, -1⟩]

/-- An enclosure of the three-cell vertical hole (0,-2),(0,0),(0,2), used to
exhibit the flood-fill pop order. -/
def s9 : HSet :=
  [⟨0, -4⟩, ⟨0, 4⟩, ⟨-1, -3⟩, ⟨1, -3⟩, ⟨-1, -1⟩, ⟨1, -1⟩, ⟨-1, 1⟩, ⟨1, 1⟩, ⟨-1, 3⟩, ⟨1, 3⟩]

/-
Model of the full HexSet structure (hex.go): a heap of HexSet objects so that
the aliasing between a clone's frozenHexSet reference and its source can be
expressed.  Object identity is a Nat id; hexSetIntf values are either the
bottom map storage or a modified-clone delta over a referenced object.  The
maximum-radius cache is not modelled (no claim below queries it through this
structure).  Recursion through parent references is fuelled; every scenario
below uses ample fuel.
-/

/-- hexSetIntf: bottom storage or clone-delta storage (hex.go). -/
inductive HexImpl where
  | bottom (members : List HexCoord)
  | modifiedClone (frozenHexSet : Nat) (mutated : Bool)
      (additions : List HexCoord) (removals : List HexCoord)
deriving DecidableEq, Repr, Inhabited

/-- A HexSet object (hex.go HexSet struct). -/
structure HexSetObj where
  impl : HexImpl
  frozen : Bool
  cloneChildren : List Nat
deriving DecidableEq, Repr, Inhabited

/-- The heap of HexSet objects. -/
structure World where
  objs : List (Nat × HexSetObj)
  nextId : Nat
deriving DecidableEq, Repr, Inhabited

/-- Dereference an object id. -/
def World.get (w : World) (i : Nat) : Option HexSetObj :=
  (w.objs.find? fun e => e.1 == i).map fun e => e.2

/-- Overwrite the object at an id. -/
def World.set (w : World) (i : Nat) (o : HexSetObj) : World :=
  ⟨w.objs.map fun e => if e.1 == i then (i, o) else e, w.nextId⟩

/-- Allocate a fresh object, returning its id. -/
def World.alloc (w : World) (o : HexSetObj) : World × Nat :=
  (⟨w.objs ++ [(w.nextId, o)], w.nextId + 1⟩, w.nextId)

/-- The empty heap. -/
def emptyWorld : World := ⟨[], 0⟩

/-- NewHexSet (hex.go): fresh empty unfrozen bottom set. -/
def newHexSet (w : World) : World × Nat :=
  w.alloc ⟨.bottom [], false, []⟩

/-- Contains (hex.go HexSet.Contains dispatching through the impl;
hexSetModifiedClone.Contains consults the frozen parent and the deltas). -/
def containsAt : Nat → World → Nat → HexCoord → Option Bool
  | 0, _, _, _ => none
  | fuel + 1, w, i, p => do
    let o ← w.get i
    match o.impl with
    | .bottom ms => some (ms.contains p)
    | .modifiedClone f m adds rems => do
      let pc ← containsAt fuel w f p
      if pc then some (!m || !(rems.contains p))
      else some (m && adds.contains p)

/-- Enumerate (hex.go): parent members not removed, then additions. -/
def enumerateAt : Nat → World → Nat → Option (List HexCoord)
  | 0, _, _ => none
  | fuel + 1, w, i => do
    let o ← w.get i
    match o.impl with
    | .bottom ms => some ms
    | .modifiedClone f m adds rems => do
      let pl ← enumerateAt fuel w f
      some (pl.filter (fun p => !m || !(rems.contains p)) ++ if m then adds else [])

/-- impl-level Add (hexSetBottom.Add / hexSetModifiedClone.Add, including
ensureMutable). -/
def implAdd (fuel : Nat) (w : World) (impl : HexImpl) (p : HexCoord) : Option HexImpl :=
  match impl with
  | .bottom ms => some (.bottom (HSet.add ms p))
  | .modifiedClone f m adds rems =>
    let adds0 := if m then adds else []
    let rems0 := if m then rems else []
    let rems1 := if rems0.contains p then HSet.remove rems0 p else rems0
    do
      let pc ← containsAt fuel w f p
      if pc then some (.modifiedClone f true adds0 rems1)
      else some (.modifiedClone f true (HSet.add adds0 p) rems1)

/-- impl-level Remove (hexSetBottom.Remove / hexSetModifiedClone.Remove). -/
def implRemove (fuel : Nat) (w : World) (impl : HexImpl) (p : HexCoord) : Option HexImpl :=
  match impl with
  | .bottom ms => some (.bottom (HSet.remove ms p))
  | .modifiedClone f m adds rems =>
    let adds0 := if m then adds else []
    let rems0 := if m then rems else []
    let adds1 := if adds0.contains p then HSet.remove adds0 p else adds0
    do
      let pc ← containsAt fuel w f p
      if !pc then some (.modifiedClone f true adds1 rems0)
      else some (.modifiedClone f true adds1 (HSet.add rems0 p))

/-- The caller-visible error of mutating a frozen set. -/
inductive HexErr where
  | FrozenSetMutation
deriving DecidableEq, Repr

/-- ensureThawed (hex.go): panic on a frozen set; otherwise, when clone
children exist, rescue them — materialize a frozen snapshot of the current
members and point every child's impl at it.  Faithful to the source: the
child's impl is replaced by a fresh delta (its accumulated additions and
removals are dropped). -/
def ensureThawed (fuel : Nat) (w : World) (i : Nat) : Option (Except HexErr World) := do
  let o ← w.get i
  if o.frozen then some (.error .FrozenSetMutation)
  else if o.cloneChildren.isEmpty then some (.ok w)
  else do
    let ms ← enumerateAt fuel w i
    let members := ms.foldl HSet.add []
    let (w1, rvId) := w.alloc ⟨.bottom members, true, []⟩
    let w2 := o.cloneChildren.foldl
      (fun acc ch =>
        match acc.get ch with
        | some co => acc.set ch ⟨.modifiedClone rvId false [] [], co.frozen, co.cloneChildren⟩
        | none => acc)
      w1
    let oi ← w2.get i
    some (.ok (w2.set i ⟨oi.impl, oi.frozen, []⟩))

/-- HexSet.Add (hex.go): ensureThawed then impl Add. -/
def hexSetAdd (fuel : Nat) (w : World) (i : Nat) (p : HexCoord) :
    Option (Except HexErr World) := do
  let r ← ensureThawed fuel w i
  match r with
  | .error e => some (.error e)
  | .ok w1 => do
    let o ← w1.get i
    let impl1 ← implAdd fuel w1 o.impl p
    some (.ok (w1.set i ⟨impl1, o.frozen, o.cloneChildren⟩))

/-- HexSet.Remove (hex.go): ensureThawed then impl Remove. -/
def hexSetRemove (fuel : Nat) (w : World) (i : Nat) (p : HexCoord) :
    Option (Except HexErr World) := do
  let r ← ensureThawed fuel w i
  match r with
  | .error e => some (.error e)
  | .ok w1 => do
    let o ← w1.get i
    let impl1 ← implRemove fuel w1 o.impl p
    some (.ok (w1.set i ⟨impl1, o.frozen, o.cloneChildren⟩))

/-- Freeze (hex.go): mark immutable. -/
def freezeSet (w : World) (i : Nat) : Option World := do
  let o ← w.get i
  some (w.set i ⟨o.impl, true, o.cloneChildren⟩)

/-- Clone (hex.go): a new set backed by a delta referencing the source; an
unfrozen source registers the clone as a dependent child. -/
def cloneSet (w : World) (i : Nat) : Option (World × Nat) := do
  let o ← w.get i
  let (w1, rvId) := w.alloc ⟨.modifiedClone i false [] [], false, []⟩
  if o.frozen then some (w1, rvId)
  else some (w1.set i ⟨o.impl, o.frozen, o.cloneChildren ++ [rvId]⟩, rvId)

/-- InPlaceUnion (hex.go): adds every element of the other set through
`h.impl.Add` directly — faithful to the source, which does not call
ensureThawed here. -/
def inPlaceUnion (fuel : Nat) (w : World) (i j : Nat) : Option World := do
  let xs ← enumerateAt fuel w j
  xs.foldlM
    (fun acc p => do
      let o ← acc.get i
      let impl1 ← implAdd fuel acc o.impl p
      some (acc.set i ⟨impl1, o.frozen, o.cloneChildren⟩))
    w

instance instDecEqExcept {ε α : Type} [DecidableEq ε] [DecidableEq α] :
    DecidableEq (Except ε α) := fun a b =>
  match a, b with
  | .error x, .error y =>
    if h : x = y then isTrue (h ▸ rfl) else isFalse fun hc => h (Except.error.inj hc)
  | .error _, .ok _ => isFalse fun hc => Except.noConfusion hc
  | .ok _, .error _ => isFalse fun hc => Except.noConfusion hc
  | .ok x, .ok y =>
    if h : x = y then isTrue (h ▸ rfl) else isFalse fun hc => h (Except.ok.inj hc)

/-- Unwrap a successful mutating step. -/
def okStep (r : Option (Except HexErr World)) : Option World :=
  r.bind fun e => e.toOption

/-
C1 scenario: A = {(1,1),(2,2)}; B = A.Clone(); B.Add((3,3)); then A.Add((5,5))
triggers the rescue.  Ids: A = 0, B = 1.
-/

/-- World after A is built with members (1,1) and (2,2). -/
def c1WorldA : Option World :=
  let (w1, a) := newHexSet emptyWorld
  (okStep (hexSetAdd 20 w1 a ⟨1, 1⟩)).bind fun w2 =>
    okStep (hexSetAdd 20 w2 a ⟨2, 2⟩)

/-- World after B = A.Clone() and B.Add((3,3)). -/
def c1WorldMid : Option World :=
  c1WorldA.bind fun w3 =>
    (cloneSet w3 0).bind fun wb =>
      okStep (hexSetAdd 20 wb.1 wb.2 ⟨3, 3⟩)

/-- World after the subsequent A.Add((5,5)) (the rescue). -/
def c1WorldFinal : Option World :=
  c1WorldMid.bind fun w4 => okStep (hexSetAdd 20 w4 0 ⟨5, 5⟩)

/-
C5 scenario: s = NewHexSet(); s.Freeze(); x = {(0,0)}; s.InPlaceUnion(x).
Ids: s = 0, x = 1.
-/

/-- World with s frozen and x = {(0,0)}. -/
def c5WorldA : Option World :=
  let (w1, s) := newHexSet emptyWorld
  (freezeSet w1 s).bind fun w2 =>
    let (w3, x) := newHexSet w2
    okStep (hexSetAdd 20 w3 x ⟨0, 0⟩)

/-- World after s.InPlaceUnion(x) on the frozen s. -/
def c5WorldFinal : Option World :=
  c5WorldA.bind fun w => inPlaceUnion 20 w 0 1

/-
Angular interval arithmetic (geometric source file), modelled over the real
numbers: the Go float64 operations are idealized as exact real arithmetic.
math.Mod(x, y) is x - y*trunc(x/y), truncation toward zero.
-/

/-- Truncation toward zero of a real, as Go's float-to-integral truncation
inside math.Mod. -/
noncomputable def goTrunc (r : ℝ) : ℤ :=
  if 0 ≤ r then ⌊r⌋ else -⌊-r⌋

/-- math.Mod(x, y): the truncated-division remainder. -/
noncomputable def goMod (x y : ℝ) : ℝ :=
  x - y * goTrunc (x / y)

/-- transformAngle (geometric source): normalize an offset angle into
[0, 2π). -/
noncomputable def transformAngle (a offset : ℝ) : ℝ :=
  let tp := 2 * Real.pi
  let a1 := goMod (a + offset) tp
  goMod (a1 + tp) tp

/-- AngularInterval (geometric source): sentinel flags plus bounds. -/
structure AngularInterval where
  Empty : Bool
  Full : Bool
  Rad0 : ℝ
  Rad1 : ℝ

/-- The interval containing all angles. -/
def FullAngularInterval : AngularInterval := ⟨false, true, 0, 0⟩

/-- The interval containing no angles. -/
def EmptyAngularInterval : AngularInterval := ⟨true, false, 0, 0⟩

/-- NewAngularInterval (geometric source): normalize both bounds; the result
is neither empty nor full. -/
noncomputable def NewAngularInterval (a0 a1 : ℝ) : AngularInterval :=
  ⟨false, false, transformAngle a0 0, transformAngle a1 0⟩

/-- Size (geometric source): full is 2π; otherwise end-start, or the
wraparound length. -/
noncomputable def AngularInterval.Size (n : AngularInterval) : ℝ :=
  if n.Full then 2 * Real.pi
  else if n.Rad1 ≥ n.Rad0 then n.Rad1 - n.Rad0
  else n.Rad1 + (2 * Real.pi - n.Rad0)

/-
Theorems.
-/

theorem validHex_iff_dvd (c : HexCoord) : validHex c ↔ (2 : ℤ) ∣ (c.X - c.Y) := by
  unfold validHex
  omega

theorem validHex_directions (d : HexDir) : validHex (Directions d) := by
  cases d <;> decide

theorem validHex_addMult {c d : HexCoord} (m : ℤ) (hc : validHex c) (hd : validHex d) :
    validHex (c.AddMultDelta m d) := by
  rw [validHex_iff_dvd] at hc hd ⊢
  unfold HexCoord.AddMultDelta
  have hsplit : c.X + m * d.X - (c.Y + m * d.Y) = (c.X - c.Y) + m * (d.X - d.Y) := by ring
  simp only [hsplit]
  exact dvd_add hc (Dvd.dvd.mul_left hd m)

/-- C4: the source Move is evaluated at the failing input Origin.Move(North,
North): the loop restarts from the receiver at each step, so the result is
(0,2), not the fold value (0,4) required by the specification. -/
theorem move_is_not_a_fold :
    Origin.Move [.North, .North] = ⟨0, 2⟩ ∧ (⟨0, 2⟩ : HexCoord) ≠ ⟨0, 4⟩ := by
  decide

/-- C1: the copy-on-write model is evaluated at the failing trace A =
{(1,1),(2,2)}; B = A.Clone(); B.Add((3,3)); A.Add((5,5)).  Before A's
mutation B contains (3,3); the rescue triggered by A.Add((5,5)) replaces B's
delta wholesale, so afterwards B no longer contains the coordinate it itself
added — the accumulated deltas are dropped, not preserved. -/
theorem rescue_drops_clone_deltas :
    (c1WorldMid.bind fun w => containsAt 20 w 1 ⟨3, 3⟩) = some true
    ∧ (c1WorldFinal.bind fun w => containsAt 20 w 1 ⟨3, 3⟩) = some false
    ∧ (c1WorldFinal.bind fun w => containsAt 20 w 1 ⟨1, 1⟩) = some true
    ∧ (c1WorldFinal.bind fun w => containsAt 20 w 0 ⟨5, 5⟩) = some true := by
  decide

/-- C5: the copy-on-write model is evaluated at the failing trace s =
NewHexSet(); s.Freeze(); s.InPlaceUnion({(0,0)}).  InPlaceUnion silently
mutates the frozen set (no FrozenSetMutation), while a direct Add on the same
frozen set does fail with FrozenSetMutation. -/
theorem inPlaceUnion_mutates_frozen_set :
    (c5WorldA.bind fun w => containsAt 20 w 0 ⟨0, 0⟩) = some false
    ∧ (c5WorldFinal.bind fun w => containsAt 20 w 0 ⟨0, 0⟩) = some true
    ∧ (c5WorldFinal.bind fun w => (w.get 0).map fun o => o.frozen) = some true
    ∧ (c5WorldFinal.bind fun w => hexSetAdd 20 w 0 ⟨2, 2⟩)
        = some (.error .FrozenSetMutation) := by
  decide

/-- C6 counterexample: the proto encoding truncates to int32, so the
round-trip is not the identity on every valid coordinate: (2^31, 2^31)
decodes successfully but to (-2^31, -2^31). -/
theorem proto_roundtrip_fails_beyond_int32 :
    HexFromProto (HexCoord.ToProto ⟨2 ^ 31, 2 ^ 31⟩) = .ok ⟨-(2 ^ 31), -(2 ^ 31)⟩
    ∧ (⟨-(2 ^ 31), -(2 ^ 31)⟩ : HexCoord) ≠ ⟨2 ^ 31, 2 ^ 31⟩ := by
  decide

theorem int32wrap_eq_self {x : ℤ} (h0 : -(2 ^ 31) ≤ x) (h1 : x < 2 ^ 31) :
    int32wrap x = x := by
  unfold int32wrap
  omega

/-- C6 amended: for valid coordinates whose components fit in int32 the
round-trip is the identity, and decoding any unequal-parity pair fails with
InvalidCoordinate. -/
theorem proto_roundtrip_in_int32_range :
    (∀ c : HexCoord, validHex c → -(2 ^ 31) ≤ c.X → c.X < 2 ^ 31 →
      -(2 ^ 31) ≤ c.Y → c.Y < 2 ^ 31 → HexFromProto c.ToProto = .ok c)
    ∧ (∀ p : PbHexCoord, p.X % 2 ≠ p.Y % 2 →
      HexFromProto p = .error .InvalidCoordinate) := by
  constructor
  · intro c hv hx0 hx1 hy0 hy1
    unfold HexFromProto HexCoord.ToProto TryNewHex NewHex
    rw [int32wrap_eq_self hx0 hx1, int32wrap_eq_self hy0 hy1]
    unfold validHex at hv
    rw [hv]
    simp
  · intro p hp
    unfold HexFromProto TryNewHex
    rcases Int.emod_two_eq p.X with h | h <;> rcases Int.emod_two_eq p.Y with h2 | h2 <;>
      simp [h, h2] at hp ⊢

/-- Witness for the amended C6 round-trip at (2,4) and at the unequal-parity
pair (1,2). -/
theorem proto_roundtrip_witness :
    HexFromProto (HexCoord.ToProto ⟨2, 4⟩) = .ok ⟨2, 4⟩
    ∧ HexFromProto ⟨1, 2⟩ = .error .InvalidCoordinate :=
  ⟨proto_roundtrip_in_int32_range.1 ⟨2, 4⟩ (by decide) (by decide) (by decide)
      (by decide) (by decide),
    proto_roundtrip_in_int32_range.2 ⟨1, 2⟩ (by decide)⟩

theorem hset_contains_iff (h : HSet) (p : HexCoord) : h.contains p = true ↔ p ∈ h := by
  simp [HSet.contains]

theorem hset_contains_add {h : HSet} {p q : HexCoord} :
    (h.add q).contains p = true ↔ (h.contains p = true ∨ p = q) := by
  unfold HSet.add
  split_ifs with hq
  · constructor
    · exact Or.inl
    · rintro (hp | rfl)
      · exact hp
      · exact hq
  · simp only [hset_contains_iff, List.mem_append, List.mem_singleton]

theorem hset_union_contains_left {a : HSet} (b : HSet) {p : HexCoord}
    (hp : a.contains p = true) : (a.union b).contains p = true := by
  unfold HSet.union
  induction b generalizing a with
  | nil => exact hp
  | cons x xs ih => exact ih (hset_contains_add.mpr (Or.inl hp))

theorem holesFilled_contains_input {fuel : Nat} {s r : HSet}
    (hEq : HexSetWithHolesFilled fuel s = some r) {p : HexCoord}
    (hp : s.contains p = true) : r.contains p = true := by
  unfold HexSetWithHolesFilled HexSetWithHolesFilledT at hEq
  simp only [Option.map_eq_some', bind, Option.bind_eq_some] at hEq
  obtain ⟨pair, ⟨cands, hc, maxR, hm, res, hres, hpair⟩, hr⟩ := hEq
  obtain rfl : (s.union res.1, res.2) = pair := Option.some.inj hpair
  subst hr
  exact hset_union_contains_left res.1 hp

/-- C3: the six-cell ring around the origin fills to include the origin; the
ring broken at (1,1) does not fill the origin (the region connected to the
unbounded exterior is never filled); and the hole-filled result always
contains every element of the input set. -/
theorem holes_filled_spec :
    ((HexSetWithHolesFilled 100 ringS).map fun r => r.contains Origin) = some true
    ∧ ((HexSetWithHolesFilled 100 brokenRingS).map fun r => r.contains Origin) = some false
    ∧ (∀ (fuel : Nat) (s r : HSet), HexSetWithHolesFilled fuel s = some r →
        ∀ p : HexCoord, s.contains p = true → r.contains p = true) :=
  ⟨by decide, by decide, fun _ _ _ hEq _ hp => holesFilled_contains_input hEq hp⟩

/-- Witness for the containment part of the hole-filling theorem, applied to
the ring at the member (0,2). -/
theorem holes_filled_spec_witness :
    HSet.contains [⟨0, 2⟩, ⟨-1, 1⟩, ⟨-1, -1⟩, ⟨0, -2⟩, ⟨1, -1⟩, ⟨1, 1⟩, ⟨0, 0⟩] ⟨0, 2⟩
      = true :=
  holes_filled_spec.2.2 100 ringS
    [⟨0, 2⟩, ⟨-1, 1⟩, ⟨-1, -1⟩, ⟨0, -2⟩, ⟨1, -1⟩, ⟨1, 1⟩, ⟨0, 0⟩]
    (by decide) ⟨0, 2⟩ (by decide)

theorem border_step_inv (ex rv : HSet) (x : HexCoord)
    (hinv : ∀ p, rv.contains p = true → ex.contains p = false) :
    ∀ p, HSet.contains (if ex.contains x then rv else rv.add x) p = true →
      ex.contains p = false := by
  intro p hp
  by_cases hex : ex.contains x = true
  · rw [if_pos hex] at hp
    exact hinv p hp
  · rw [if_neg hex] at hp
    rcases hset_contains_add.mp hp with h1 | rfl
    · exact hinv p h1
    · cases hb : ex.contains p
      · rfl
      · exact absurd hb hex

theorem border_inner_fold_inv (ex : HSet) (nbs : List HexCoord) :
    ∀ rv : HSet, (∀ p, rv.contains p = true → ex.contains p = false) →
      ∀ p, (List.foldl (fun rv2 nb => if ex.contains nb then rv2 else rv2.add nb) rv
          nbs).contains p = true →
        ex.contains p = false := by
  induction nbs with
  | nil => exact fun rv hinv p hp => hinv p hp
  | cons x xs ih =>
    intro rv hinv p hp
    exact ih _ (fun q hq => border_step_inv ex rv x hinv q hq) p hp

theorem border_fold_inv (ex : HSet) (ps : List HexCoord) :
    ∀ rv : HSet, (∀ p, rv.contains p = true → ex.contains p = false) →
      ∀ p, (List.foldl
          (fun rv p0 => List.foldl
            (fun rv2 nb => if ex.contains nb then rv2 else rv2.add nb) rv p0.Neighbours)
          rv ps).contains p = true →
        ex.contains p = false := by
  induction ps with
  | nil => exact fun rv hinv p hp => hinv p hp
  | cons x xs ih =>
    intro rv hinv p hp
    exact ih _ (fun q hq => border_inner_fold_inv ex x.Neighbours rv hinv q hq) p hp

/-- C8: the outer border of a set never contains a member of the set: holes
are closed before the border is collected, and every collected neighbour is
outside the hole-filled set, which contains the whole input set. -/
theorem outer_border_disjoint :
    ∀ (fuel : Nat) (s rv : HSet), OuterBorder fuel s = some rv →
      ∀ p : HexCoord, rv.contains p = true → s.contains p = false := by
  intro fuel s rv hEq p hp
  unfold OuterBorder at hEq
  simp only [bind, Option.bind_eq_some] at hEq
  obtain ⟨ex, hex, hrv⟩ := hEq
  obtain rfl := Option.some.inj hrv
  have hxp : ex.contains p = false := by
    refine border_fold_inv ex s [] ?_ p hp
    intro q hq
    simp [HSet.contains] at hq
  cases hsp : s.contains p with
  | false => rfl
  | true =>
    rw [holesFilled_contains_input hex hsp] at hxp
    exact absurd hxp (by simp)

/-- Witness for the outer-border theorem: the ring's computed border contains
(0,4), which is therefore not in the ring. -/
theorem outer_border_disjoint_witness :
    HSet.contains ringS ⟨0, 4⟩ = false :=
  outer_border_disjoint 50 ringS
    [⟨0, 4⟩, ⟨-1, 3⟩, ⟨1, 3⟩, ⟨-2, 2⟩, ⟨-2, 0⟩, ⟨-2, -2⟩, ⟨-1, -3⟩, ⟨0, -4⟩,
      ⟨1, -3⟩, ⟨2, -2⟩, ⟨2, 0⟩, ⟨2, 2⟩]
    (by decide) ⟨0, 4⟩ (by decide)

/-- C9 counterexample: in the flood fill of the enclosure of the vertical
hole (0,-2),(0,0),(0,2), the popped (cell, priority) sequence is
[((0,-2),1), ((0,0),0), ((0,2),1)]: a cell of radius 1 is popped before a
cell of radius 0, so pops are not in ascending order of radius. -/
theorem flood_pops_not_ascending :
    ((HexSetWithHolesFilledT 100 s9).map fun x => x.2.map fun tr => tr.map fun e => e.1)
      = some [[(⟨0, -2⟩, 1), (⟨0, 0⟩, 0), (⟨0, 2⟩, 1)]]
    ∧ HexCoord.Radius? ⟨0, -2⟩ = some 1
    ∧ HexCoord.Radius? ⟨0, 0⟩ = some 0
    ∧ ¬((1 : ℤ) ≤ 0) := by
  decide

theorem popMax_eq_none {q : PQ} (h : popMax q = none) : q = [] := by
  cases q with
  | nil => rfl
  | cons a rest =>
    unfold popMax at h
    cases hr : popMax rest with
    | none =>
      rw [hr] at h
      simp only [] at h
      cases h
    | some m =>
      obtain ⟨me, mq⟩ := m
      rw [hr] at h
      simp only [] at h
      split at h <;> cases h

theorem popMax_le {q : PQ} {e : HexCoord × ℤ} {q' : PQ}
    (h : popMax q = some (e, q')) : ∀ x ∈ q, x.2 ≤ e.2 := by
  induction q generalizing e q' with
  | nil => simp [popMax] at h
  | cons a rest ih =>
    unfold popMax at h
    cases hr : popMax rest with
    | none =>
      rw [hr] at h
      simp only [] at h
      obtain ⟨rfl, rfl⟩ : a = e ∧ [] = q' := by
        cases h
        exact ⟨rfl, rfl⟩
      have hnil : rest = [] := popMax_eq_none hr
      subst hnil
      intro x hx
      rcases List.mem_cons.mp hx with rfl | hx2
      · exact le_refl _
      · cases hx2
    | some m =>
      obtain ⟨me, mq⟩ := m
      rw [hr] at h
      simp only [] at h
      split at h
      next hge =>
        obtain ⟨rfl, rfl⟩ : a = e ∧ rest = q' := by
          cases h
          exact ⟨rfl, rfl⟩
        intro x hx
        rcases List.mem_cons.mp hx with rfl | hx2
        · exact le_refl _
        · exact le_trans (ih hr x hx2) hge
      next hge =>
        obtain ⟨rfl, rfl⟩ : me = e ∧ a :: mq = q' := by
          cases h
          exact ⟨rfl, rfl⟩
        intro x hx
        rcases List.mem_cons.mp hx with rfl | hx2
        · exact le_of_not_ge hge
        · exact ih hr x hx2

theorem floodT_trace_max (s : HSet) (maxR : ℤ) (ocean : HSet) :
    ∀ (fuel : Nat) (q : PQ) (body res : HSet) (oc : Bool) (tr : List PopEvent),
      floodT s maxR ocean fuel q body = some (res, oc, tr) →
      ∀ ev ∈ tr, ∀ x ∈ ev.2, x.2 ≤ ev.1.2 := by
  intro fuel
  induction fuel with
  | zero =>
    intro q body res oc tr h
    simp [floodT] at h
  | succ n ih =>
    intro q body res oc tr h
    unfold floodT at h
    cases hq : popMax q with
    | none =>
      rw [hq] at h
      simp only [] at h
      obtain ⟨rfl, rfl, rfl⟩ : body = res ∧ false = oc ∧ [] = tr := by
        cases h
        exact ⟨rfl, rfl, rfl⟩
      intro ev hev
      cases hev
    | some eqp =>
      obtain ⟨e, q1⟩ := eqp
      rw [hq] at h
      simp only [] at h
      cases hs : scanNbs s (body.add e.1) maxR ocean (HexCoord.Neighbours e.1) q1 with
      | none =>
        rw [hs] at h
        cases h
      | some qb =>
        obtain ⟨q2, ob⟩ := qb
        rw [hs] at h
        cases ob with
        | true =>
          obtain ⟨rfl, rfl, rfl⟩ : body.add e.1 = res ∧ true = oc ∧ [(e, q)] = tr := by
            cases h
            exact ⟨rfl, rfl, rfl⟩
          intro ev hev
          rcases List.mem_singleton.mp hev with rfl
          intro x hx
          exact popMax_le hq x hx
        | false =>
          rw [Option.map_eq_some'] at h
          obtain ⟨trip, htrip, heq⟩ := h
          obtain ⟨rfl, rfl, rfl⟩ : trip.1 = res ∧ trip.2.1 = oc ∧ (e, q) :: trip.2.2 = tr := by
            cases heq
            exact ⟨rfl, rfl, rfl⟩
          intro ev hev
          rcases List.mem_cons.mp hev with rfl | hev2
          · intro x hx
            exact popMax_le hq x hx
          · exact ih q2 (body.add e.1) trip.1 trip.2.1 trip.2.2
              (by rw [htrip]) ev hev2

theorem processCandidates_trace_max (fuel : Nat) (s : HSet) (maxR : ℤ) :
    ∀ (cands : List HexCoord) (lake ocean : HSet) (acc : List (List PopEvent))
      (res : HSet × List (List PopEvent)),
      processCandidates fuel s maxR cands lake ocean acc = some res →
      (∀ tr ∈ acc, ∀ ev ∈ tr, ∀ x ∈ ev.2, x.2 ≤ ev.1.2) →
      ∀ tr ∈ res.2, ∀ ev ∈ tr, ∀ x ∈ ev.2, x.2 ≤ ev.1.2 := by
  intro cands
  induction cands with
  | nil =>
    intro lake ocean acc res h hacc
    obtain rfl : (lake, acc) = res := Option.some.inj h
    exact hacc
  | cons p rest ih =>
    intro lake ocean acc res h hacc
    unfold processCandidates at h
    split at h
    · exact ih lake ocean acc res h hacc
    · simp only [bind, Option.bind_eq_some] at h
      obtain ⟨r, hrad, trip, htrip, h2⟩ := h
      have htr : ∀ ev ∈ trip.2.2, ∀ x ∈ ev.2, x.2 ≤ ev.1.2 :=
        floodT_trace_max s maxR ocean fuel [(p, r)] [] trip.1 trip.2.1 trip.2.2
          (by rw [htrip])
      have hext : ∀ tr ∈ acc ++ [trip.2.2], ∀ ev ∈ tr, ∀ x ∈ ev.2, x.2 ≤ ev.1.2 := by
        intro tr htr2
        rcases List.mem_append.mp htr2 with hin | hin
        · exact hacc tr hin
        · rcases List.mem_singleton.mp hin with rfl
          exact htr
      split at h2
      · exact ih lake (ocean.union trip.1) (acc ++ [trip.2.2]) res h2 hext
      · exact ih (lake.union trip.1) ocean (acc ++ [trip.2.2]) res h2 hext

/-- C9 amended: the flood-fill frontier is a max-priority queue keyed by
radius, so each popped cell has radius greater than or equal to every cell in
the frontier at the moment of the pop; the pop sequence is not in ascending
order of radius. -/
theorem flood_pops_max_of_frontier :
    ∀ (fuel : Nat) (s : HSet) (res : HSet × List (List PopEvent)),
      HexSetWithHolesFilledT fuel s = some res →
      ∀ tr ∈ res.2, ∀ ev ∈ tr, ∀ x ∈ ev.2, x.2 ≤ ev.1.2 := by
  intro fuel s res h
  unfold HexSetWithHolesFilledT at h
  simp only [bind, Option.bind_eq_some] at h
  obtain ⟨cands, hc, maxR, hm, pres, hpres, hlast⟩ := h
  obtain rfl : (s.union pres.1, pres.2) = res := Option.some.inj hlast
  intro tr htr
  exact processCandidates_trace_max fuel s maxR cands [] [] [] pres hpres
    (by intro tr2 htr2; cases htr2) tr htr

/-- Witness for the amended flood-fill pop property at the first pop event of
the s9 flood. -/
theorem flood_pops_max_witness : (1 : ℤ) ≤ 1 :=
  flood_pops_max_of_frontier 100 s9
    ([⟨0, -4⟩, ⟨0, 4⟩, ⟨-1, -3⟩, ⟨1, -3⟩, ⟨-1, -1⟩, ⟨1, -1⟩, ⟨-1, 1⟩, ⟨1, 1⟩,
        ⟨-1, 3⟩, ⟨1, 3⟩, ⟨0, -2⟩, ⟨0, 0⟩, ⟨0, 2⟩],
      [[((⟨0, -2⟩, 1), [(⟨0, -2⟩, 1)]), ((⟨0, 0⟩, 0), [(⟨0, 0⟩, 0)]),
        ((⟨0, 2⟩, 1), [(⟨0, 2⟩, 1)])]])
    (by rfl)
    [((⟨0, -2⟩, 1), [(⟨0, -2⟩, 1)]), ((⟨0, 0⟩, 0), [(⟨0, 0⟩, 0)]),
      ((⟨0, 2⟩, 1), [(⟨0, 2⟩, 1)])]
    (by decide)
    ((⟨0, -2⟩, 1), [(⟨0, -2⟩, 1)])
    (by decide)
    (⟨0, -2⟩, 1)
    (by decide)

theorem validHex_origin : validHex Origin := by decide

theorem validHex_addDir (c : HexCoord) (d : HexDir) (hc : validHex c) :
    validHex (⟨c.X + (Directions d).X, c.Y + (Directions d).Y⟩ : HexCoord) := by
  unfold validHex at hc ⊢
  cases d <;> simp only [Directions] <;> omega

theorem move_foldl_valid (c : HexCoord) (hc : validHex c) :
    ∀ (ds : List HexDir) (acc : HexCoord), validHex acc →
      validHex (List.foldl
        (fun _rv d => let dc := Directions d; (⟨c.X + dc.X, c.Y + dc.Y⟩ : HexCoord))
        acc ds) := by
  intro ds
  induction ds with
  | nil => exact fun acc hacc => hacc
  | cons d rest ih => exact fun acc _ => ih _ (validHex_addDir c d hc)

theorem radius_isSome_of_valid (c : HexCoord) (hc : validHex c) :
    (c.Radius?).isSome = true := by
  have habs : (c.AbsX + c.AbsY) % 2 = 0 := by
    unfold validHex at hc
    unfold HexCoord.AbsX HexCoord.AbsY
    split_ifs <;> omega
  unfold HexCoord.Radius?
  simp [habs]

theorem newHexPolar_valid (r step : ℤ) (c : HexCoord)
    (h : NewHexPolar r step = some c) : validHex c := by
  unfold NewHexPolar at h
  by_cases h0 : r = 0
  · rw [if_pos h0] at h
    obtain rfl := Option.some.inj h
    decide
  · rw [if_neg h0] at h
    dsimp only [] at h
    split_ifs at h <;>
      (obtain rfl := Option.some.inj h; exact validHex_addMult _ (validHex_addMult _ validHex_origin (validHex_directions _)) (validHex_directions _))

/-- C10: parity preservation: the direction deltas all have equal-parity
components, every coordinate producing operation (AddDelta, AddMultDelta,
Minus, Negation, Neighbours, Move, NewHexPolar) maps equal-parity
coordinates to equal-parity coordinates, and Radius never takes its
odd-coordinate-sum abort branch on a valid coordinate. -/
theorem coordinate_ops_preserve_parity :
    (∀ d : HexDir, validHex (Directions d))
    ∧ (∀ c d : HexCoord, validHex c → validHex d →
        validHex (c.AddDelta d)
        ∧ (∀ m : ℤ, validHex (c.AddMultDelta m d))
        ∧ validHex (c.Minus d)
        ∧ validHex c.Negation
        ∧ (∀ n ∈ c.Neighbours, validHex n)
        ∧ (∀ ds : List HexDir, validHex (c.Move ds))
        ∧ (c.Radius?).isSome = true)
    ∧ (∀ (r step : ℤ) (c : HexCoord), NewHexPolar r step = some c → validHex c) := by
  refine ⟨validHex_directions, ?_, newHexPolar_valid⟩
  intro c d hc hd
  refine ⟨validHex_addMult 1 hc hd, fun m => validHex_addMult m hc hd,
    validHex_addMult (-1) hc hd, validHex_addMult (-1) validHex_origin hc, ?_, ?_,
    radius_isSome_of_valid c hc⟩
  · intro n hn
    unfold HexCoord.Neighbours at hn
    obtain ⟨dd, _, rfl⟩ := List.mem_map.mp hn
    exact validHex_addMult 1 hc (validHex_directions dd)
  · intro ds
    exact move_foldl_valid c hc ds c hc

/-- Witness for the parity-preservation theorem at (1,1) and at
NewHexPolar(1,1) = (-1,1). -/
theorem coordinate_ops_parity_witness :
    validHex ((⟨1, 1⟩ : HexCoord).AddDelta ⟨0, 2⟩)
    ∧ ((⟨1, 1⟩ : HexCoord).Radius?).isSome = true
    ∧ validHex (⟨-1, 1⟩ : HexCoord) :=
  ⟨(coordinate_ops_preserve_parity.2.1 ⟨1, 1⟩ ⟨0, 2⟩ (by decide) (by decide)).1,
    (coordinate_ops_preserve_parity.2.1 ⟨1, 1⟩ ⟨0, 2⟩ (by decide) (by decide)).2.2.2.2.2.2,
    coordinate_ops_preserve_parity.2.2 1 1 ⟨-1, 1⟩ (by decide)⟩

theorem goTrunc_of_Ico {r : ℝ} (h0 : 0 ≤ r) (h1 : r < 1) : goTrunc r = 0 := by
  unfold goTrunc
  rw [if_pos h0]
  exact Int.floor_eq_zero_iff.mpr (Set.mem_Ico.mpr ⟨h0, h1⟩)

theorem goMod_of_Ico {a tp : ℝ} (htp : 0 < tp) (h0 : 0 ≤ a) (h1 : a < tp) :
    goMod a tp = a := by
  unfold goMod
  rw [goTrunc_of_Ico (div_nonneg h0 htp.le) ((div_lt_one htp).mpr h1)]
  push_cast
  ring

theorem goMod_add_of_Ico {a tp : ℝ} (htp : 0 < tp) (h0 : 0 ≤ a) (h1 : a < tp) :
    goMod (a + tp) tp = a := by
  unfold goMod
  have hq : (a + tp) / tp = a / tp + 1 := by
    field_simp
  have htr : goTrunc ((a + tp) / tp) = 1 := by
    unfold goTrunc
    rw [hq, if_pos (by positivity), Int.floor_add_one,
      Int.floor_eq_zero_iff.mpr (Set.mem_Ico.mpr
        ⟨div_nonneg h0 htp.le, (div_lt_one htp).mpr h1⟩)]
    norm_num
  rw [htr]
  push_cast
  ring

theorem transformAngle_eq_self {a : ℝ} (h0 : 0 ≤ a) (h1 : a < 2 * Real.pi) :
    transformAngle a 0 = a := by
  unfold transformAngle
  have htp : (0 : ℝ) < 2 * Real.pi := by positivity
  dsimp only
  rw [add_zero, goMod_of_Ico htp h0 h1, goMod_add_of_Ico htp h0 h1]

/-- C7: Size of the full interval is 2π; a bounded interval built by
NewAngularInterval has Size end-start when end is at least start and the
wraparound length otherwise; NewAngularInterval(1,5).Size = 4 exactly and
NewAngularInterval(5,1).Size = 2π-5+1. -/
theorem angular_interval_size_spec :
    FullAngularInterval.Size = 2 * Real.pi
    ∧ (∀ a0 a1 : ℝ, (NewAngularInterval a0 a1).Size =
        if (NewAngularInterval a0 a1).Rad1 ≥ (NewAngularInterval a0 a1).Rad0
        then (NewAngularInterval a0 a1).Rad1 - (NewAngularInterval a0 a1).Rad0
        else (NewAngularInterval a0 a1).Rad1 + (2 * Real.pi - (NewAngularInterval a0 a1).Rad0))
    ∧ (NewAngularInterval 1 5).Size = 4
    ∧ (NewAngularInterval 5 1).Size = 2 * Real.pi - 5 + 1 := by
  have hpi := Real.pi_gt_three
  have h1 : transformAngle 1 0 = 1 :=
    transformAngle_eq_self (by norm_num) (by linarith)
  have h5 : transformAngle 5 0 = 5 :=
    transformAngle_eq_self (by norm_num) (by linarith)
  refine ⟨rfl, ?_, ?_, ?_⟩
  · intro a0 a1
    rfl
  · show AngularInterval.Size ⟨false, false, transformAngle 1 0, transformAngle 5 0⟩ = 4
    rw [h1, h5]
    unfold AngularInterval.Size
    norm_num
  · show AngularInterval.Size ⟨false, false, transformAngle 5 0, transformAngle 1 0⟩
      = 2 * Real.pi - 5 + 1
    rw [h5, h1]
    unfold AngularInterval.Size
    rw [if_neg (by simp), if_neg (by norm_num)]
    ring
